import Mathlib

/-!
Verification development for the page-object command-wrapper module
(`lib/page-object/command-wrapper.js`): selector resolution, ancestor
chains, locate-strategy switching around wrapped commands, and command
registration.

JavaScript strings are embedded as lists of characters (`JStr`), element
and section trees as an inductive `PObj` mirroring the fields the module
reads, and every thrown `Error` as an explicit error value tagged by the
throw site.  Driver-side behavior (the queued `useXpath`/`useCss`/
`useRecursion` commands and the FIFO command queue) is outside this
module; those parts are modelled from the specification and marked as
such in their doc comments.
-/

/-- JavaScript strings, embedded as character lists. -/
abbrev JStr := List Char

/-- A `selector` field value: either a selector string or a selector
function (a dynamic selector applied to the parsed argument list, the
embedding of `selector.apply(null, args)`). -/
inductive Selector where
  | str (s : JStr)
  | fn (f : List JStr → JStr)

/-- A page-object node: a page, section, or element.  Mirrors exactly the
fields the module reads: `name`, `selector`, `locateStrategy`, `parent`,
`elements`, the singular `section` collection consulted by `getSection`
(field `sectionM` here since `section` is a Lean keyword), and the plural
`sections` collection used in `getSection`'s error message.  Mappings are
association lists in insertion order, matching `Object.keys` enumeration. -/
inductive PObj : Type where
  | mk : (name : JStr) → (selector : Option Selector) → (locateStrategy : JStr) →
         (parent : Option PObj) → (elements : List (JStr × PObj)) →
         (sectionM : List (JStr × PObj)) → (sections : List (JStr × PObj)) → PObj

def PObj.name : PObj → JStr
  | .mk n _ _ _ _ _ _ => n

def PObj.selector : PObj → Option Selector
  | .mk _ s _ _ _ _ _ => s

def PObj.locateStrategy : PObj → JStr
  | .mk _ _ l _ _ _ _ => l

def PObj.parent : PObj → Option PObj
  | .mk _ _ _ p _ _ _ => p

def PObj.elements : PObj → List (JStr × PObj)
  | .mk _ _ _ _ e _ _ => e

def PObj.sectionM : PObj → List (JStr × PObj)
  | .mk _ _ _ _ _ s _ => s

def PObj.sections : PObj → List (JStr × PObj)
  | .mk _ _ _ _ _ _ s => s

@[simp] theorem PObj.name_mk (n : JStr) (s : Option Selector) (l : JStr)
    (p : Option PObj) (e sm ss : List (JStr × PObj)) :
    (PObj.mk n s l p e sm ss).name = n := rfl

@[simp] theorem PObj.selector_mk (n : JStr) (s : Option Selector) (l : JStr)
    (p : Option PObj) (e sm ss : List (JStr × PObj)) :
    (PObj.mk n s l p e sm ss).selector = s := rfl

@[simp] theorem PObj.locateStrategy_mk (n : JStr) (s : Option Selector) (l : JStr)
    (p : Option PObj) (e sm ss : List (JStr × PObj)) :
    (PObj.mk n s l p e sm ss).locateStrategy = l := rfl

@[simp] theorem PObj.parent_mk (n : JStr) (s : Option Selector) (l : JStr)
    (p : Option PObj) (e sm ss : List (JStr × PObj)) :
    (PObj.mk n s l p e sm ss).parent = p := rfl

@[simp] theorem PObj.elements_mk (n : JStr) (s : Option Selector) (l : JStr)
    (p : Option PObj) (e sm ss : List (JStr × PObj)) :
    (PObj.mk n s l p e sm ss).elements = e := rfl

@[simp] theorem PObj.sectionM_mk (n : JStr) (s : Option Selector) (l : JStr)
    (p : Option PObj) (e sm ss : List (JStr × PObj)) :
    (PObj.mk n s l p e sm ss).sectionM = sm := rfl

@[simp] theorem PObj.sections_mk (n : JStr) (s : Option Selector) (l : JStr)
    (p : Option PObj) (e sm ss : List (JStr × PObj)) :
    (PObj.mk n s l p e sm ss).sections = ss := rfl

/-- JavaScript truthiness of a `selector` field (the `e.parent.selector`
test): absent and the empty string are falsy, everything else (any
non-empty string, any function) is truthy. -/
def selectorTruthy : Option Selector → Bool
  | none => false
  | some (.str s) => decide (s ≠ [])
  | some (.fn _) => true

/-- The `key in obj` membership test plus `obj[key]` read on a string-keyed
object, embedded as association-list lookup. -/
def lookupAssoc {α : Type} : List (JStr × α) → JStr → Option α
  | [], _ => none
  | (k, v) :: rest, key => if k = key then some v else lookupAssoc rest key

/-- The `obj[key] = v` assignment: overwrite the key if present, append
otherwise. -/
def assocSet {α : Type} : List (JStr × α) → JStr → α → List (JStr × α)
  | [], key, v => [(key, v)]
  | (k, w) :: rest, key, v =>
      if k = key then (key, v) :: rest else (k, w) :: assocSet rest key v

/-- `Object.keys(obj)` joined by commas, the embedding of the implicit
`Array.prototype.toString` used when an array of keys is concatenated into
an error-message string. -/
def joinKeys {α : Type} (m : List (JStr × α)) : JStr :=
  match m with
  | [] => []
  | [(k, _)] => k
  | (k, _) :: rest => k ++ ',' :: joinKeys rest

/-- JavaScript `String.prototype.split(',')`: splits on every comma and
yields `[""]` on the empty string. -/
def splitOnComma : JStr → List JStr
  | [] => [[]]
  | c :: rest =>
    match splitOnComma rest with
    | [] => [[]]
    | s :: ss => if c = ',' then [] :: s :: ss else (c :: s) :: ss

/-- Index of the first occurrence of a `<` character, the embedding of
`indexOf` (only consulted on strings that passed the parameter-syntax
test, where a `<` is present). -/
def idxOfLt (s : JStr) : Nat := s.findIdx (fun c => c = '<')

/-- Index of the last occurrence of a `>` character, the embedding of
`lastIndexOf` (only consulted on strings that passed the
parameter-syntax test, where the string ends with `>`). -/
def lastIdxOfGt (s : JStr) : Nat :=
  s.length - 1 - s.reverse.findIdx (fun c => c = '>')

/-- The `substring(indexOf('<') + 1, lastIndexOf('>'))` slice holding the
raw comma-separated argument text of a parameterized reference. -/
def betweenLtGt (s : JStr) : JStr :=
  (s.take (lastIdxOfGt s)).drop (idxOfLt s + 1)

/-- The `substring(0, indexOf('<'))` slice holding the base element name of
a parameterized reference. -/
def baseNamePart (s : JStr) : JStr := s.take (idxOfLt s)

/-- True when the string ends with `>` (the `$`-anchored tail of the
parameter-syntax regular expression). -/
def endsWithGt (s : JStr) : Bool := s.getLast? = some '>'

/-- True when some character other than `<` is immediately followed by a
`<` (the `[^<]+<` core of the parameter-syntax regular expression; a
one-character run suffices and is necessary). -/
def existsNonLtLt : JStr → Bool
  | c :: d :: rest => (decide (c ≠ '<') && decide (d = '<')) || existsNonLtLt (d :: rest)
  | _ => false

/-- The test `elementName.match(/[^<]+<.*>$/)`.  The regular expression is
anchored only at the end, so it matches exactly when the string ends with
`>` and contains a non-`<` character immediately followed by `<` (the `<`
found this way cannot be the final character, since that is `>`, so the
`.*>` tail is always satisfiable). -/
def hasParamPattern (s : JStr) : Bool := endsWithGt s && existsNonLtLt s

/-- Errors thrown by the module, tagged by throw site.  The source throws
plain `Error`s; the tags follow the specification's taxonomy
(ConfigurationError, NotFoundError, DuplicateCommandError) and carry the
exact message string the source builds. -/
inductive CWError where
  | configuration (msg : JStr)
  | notFound (msg : JStr)
  | duplicateCommand (msg : JStr)
deriving DecidableEq

/-- Message suffix of the dynamic-selector configuration error. -/
def configMsgSuffix : JStr :=
  " was called as a dynamic page object, but with no function type selector.".toList

/-- The not-found message built by `getElement`: name, parent name, and the
comma-joined keys of the element namespace. -/
def elemNotFoundMsg (n : JStr) (parent : PObj) : JStr :=
  n ++ " was not found in \"".toList ++ parent.name ++ "\". Available elements: ".toList
    ++ joinKeys parent.elements

/-- The not-found message built by `getSection`: name, parent name, and the
comma-joined keys of the plural `sections` collection (note: the lookup
itself consults the singular `section` collection). -/
def sectionNotFoundMsg (n : JStr) (parent : PObj) : JStr :=
  n ++ " was not found in \"".toList ++ parent.name ++ "\". Available sections: ".toList
    ++ joinKeys parent.sections

/-- `convertSelector(elementObj, args)`: requires a function-typed
`selector`; produces a clone of the element (the `Object.create` copy)
whose `selector` is the function's result on the parsed arguments and
whose `parent` is the same reference as the original's.  The original
element is never written to. -/
def convertSelector (elementObj : PObj) (args : List JStr) : Except CWError PObj :=
  match elementObj.selector with
  | some (.fn f) =>
      .ok (PObj.mk elementObj.name (some (.str (f args))) elementObj.locateStrategy
        elementObj.parent elementObj.elements elementObj.sectionM elementObj.sections)
  | _ => .error (.configuration (elementObj.name ++ configMsgSuffix))

/-- `getElement(parent, elementName)`: strips the leading sigil, first
tries a direct lookup of the whole remaining token in `parent.elements`,
then — only if that fails and the token carries `name<...>` parameter
syntax — parses the argument list and resolves the base name through
`convertSelector`; otherwise throws the not-found error with the element
namespace's keys. -/
def getElement (parent : PObj) (elementName0 : JStr) : Except CWError PObj :=
  let elementName := elementName0.drop 1
  match lookupAssoc parent.elements elementName with
  | some e => .ok e
  | none =>
    if hasParamPattern elementName then
      let args := splitOnComma (betweenLtGt elementName)
      let baseName := baseNamePart elementName
      match lookupAssoc parent.elements baseName with
      | some e => convertSelector e args
      | none => .error (.notFound (elemNotFoundMsg baseName parent))
    else .error (.notFound (elemNotFoundMsg elementName parent))

/-- `getSection(parent, sectionName)`: strips the leading sigil and looks
the token up in the singular `parent.section` collection; the error
message enumerates the keys of the plural `parent.sections` collection,
exactly as the source does. -/
def getSection (parent : PObj) (sectionName0 : JStr) : Except CWError PObj :=
  let sectionName := sectionName0.drop 1
  match lookupAssoc parent.sectionM sectionName with
  | some s => .ok s
  | none => .error (.notFound (sectionNotFoundMsg sectionName parent))

/-- The driver state the module touches: the single global
`client.locateStrategy` field, plus the collaborator bookkeeping written
on duplicate registration (`client.results.errors` counter and the
`client.errors` diagnostic log, the latter holding the pushed stack
strings, modelled by their messages). -/
structure Client where
  locateStrategy : JStr
  resultsErrors : Nat
  errors : List JStr
deriving DecidableEq

/-- The three locate strategies recognized by `setLocateStrategy`'s
`methodMap` (`xpath`, `css selector`, `recursion`). -/
def validStrategy (s : JStr) : Bool :=
  s = "xpath".toList || s = "css selector".toList || s = "recursion".toList

/-- One entry of the collaborator driver's deferred command queue.
Modelled from the spec: the driver executes queued work in FIFO order; a
queued strategy switch (the effect of `useXpath`/`useCss`/`useRecursion`)
writes `client.locateStrategy` when it drains, and a queued command
invokes its trailing callback argument when it completes. -/
inductive CallbackKind where
  | plain
  | wrapper (restoreTo : JStr)
deriving DecidableEq

/-- A queued driver operation: a strategy switch, or the execution of the
underlying command together with the kind of callback it will fire on
completion (`none` when the invocation carries no callback). -/
inductive QueuedOp where
  | useStrategy (s : JStr)
  | runCommand (cb : Option CallbackKind)
deriving DecidableEq

/-- `setLocateStrategy(client, desiredStrategy)`: when the strategy is one
of the three `methodMap` kinds, invokes the corresponding `client.api`
command — which appends a strategy switch to the driver queue — and does
nothing otherwise.  The returned list is what gets enqueued. -/
def setLocateStrategy (desiredStrategy : JStr) : List QueuedOp :=
  if validStrategy desiredStrategy then [QueuedOp.useStrategy desiredStrategy] else []

/-- An argument of a wrapped-command invocation.  `str`, `other` and
`func` are the caller-supplied shapes (strings, non-function data,
callback functions identified by a tag); `sel`, `chain` and `wrapped` are
produced internally by the wrapper (the raw `selector` field prepended as
first argument, the ancestor array, and the `callbackWrapper` closure
capturing the strategy to restore and the original callback). -/
inductive Arg where
  | str (s : JStr)
  | other (n : Nat)
  | func (id : Nat)
  | sel (s : Option Selector)
  | chain (l : List PObj)
  | wrapped (restoreTo : JStr) (original : Arg)

/-- The `typeof x === 'function'` test on an argument: caller-supplied
callbacks, the installed `callbackWrapper`, and a function-valued
`selector` field are functions; everything else is not. -/
def isFuncArg : Arg → Bool
  | .func _ => true
  | .wrapped _ _ => true
  | .sel (some (.fn _)) => true
  | _ => false

/-- True for the argument shapes a caller can supply (internal shapes
`sel`, `chain`, `wrapped` arise only inside the wrapper). -/
def userArg : Arg → Bool
  | .str _ => true
  | .other _ => true
  | .func _ => true
  | _ => false

/-- Whether `arg.toString()` starts with the `@` sigil: only string
arguments can (the string renderings of numbers, functions and arrays of
objects never begin with `@`). -/
def startsWithAt : Arg → Bool
  | .str s => s.head? = some '@'
  | _ => false

/-- `isElementCommand(args)`: a non-empty argument list whose first
argument renders to a string starting with the `@` sigil. -/
def isElementCommand (args : List Arg) : Bool :=
  match args with
  | [] => false
  | a :: _ => startsWithAt a

/-- The string payload of an argument (`args.shift()` hands the raw value
to the getter; only `str` arguments reach it, since only they pass the
sigil test). -/
def argToJStr : Arg → JStr
  | .str s => s
  | _ => []

/-- The `typeof args[i] === 'function'` test at a position (out-of-range
reads yield `undefined`, which is not a function). -/
def funcAt (args : List Arg) (i : Nat) : Bool :=
  match args.get? i with
  | some a => isFuncArg a
  | none => false

/-- `findCallbackIndex(args)`: checks the last position, then the second
to last (for waitFor-style trailing message arguments), and reports the
first function found; `none` embeds the source's `-1`. -/
def findCallbackIndex (args : List Arg) : Option Nat :=
  if args.length = 0 then none
  else
    let index := args.length - 1
    if funcAt args index then some index
    else if index = 0 then none
    else if funcAt args (index - 1) then some (index - 1)
    else none

/-- The callback-wrapping step of `makeWrappedCommand`: when the scan
finds a callback, replace it in place with the `callbackWrapper` closure
that captures `prevLocateStrategy` and the original callback. -/
def wrapCallback (prev : JStr) (args : List Arg) : List Arg :=
  match findCallbackIndex args with
  | none => args
  | some i =>
    match args.get? i with
    | some a => args.set i (.wrapped prev a)
    | none => args

/-- The callback the queued command will fire on completion.  Modelled
from the spec: the driver invokes the callback located by the trailing
two-position scan; an installed `callbackWrapper` first assigns
`client.locateStrategy` back to its captured value and then calls the
original callback, while a plain callback just runs. -/
def callbackKindOf (args : List Arg) : Option CallbackKind :=
  match findCallbackIndex args with
  | none => none
  | some i =>
    match args.get? i with
    | some (.wrapped r _) => some (.wrapper r)
    | some _ => some .plain
    | none => none

/-- `getAncestorsWithElement`'s inner `addElement`: prepend the current
node, then recurse into the parent while the parent exists and has a
truthy `selector`. -/
def addElementAcc : PObj → List PObj → List PObj
  | e@(.mk _ _ _ parent _ _ _), acc =>
    let acc' := e :: acc
    match parent with
    | some p => if selectorTruthy p.selector then addElementAcc p acc' else acc'
    | none => acc'

/-- `getAncestorsWithElement(element)`: the ordered ancestor chain from
the outermost resolvable container down to and including the element. -/
def getAncestorsWithElement (element : PObj) : List PObj :=
  addElementAcc element []

/-- The effective first argument of a targeted invocation (source lines
109-115): the resolved node's own raw `selector` field when its ancestor
chain has length one, the entire ancestor chain otherwise. -/
def effectiveFirstArg (t : PObj) : Arg :=
  if (getAncestorsWithElement t).length = 1 then Arg.sel t.selector
  else Arg.chain (getAncestorsWithElement t)

/-- The strategy passed to `setLocateStrategy` for a targeted invocation
(source lines 109-115): the resolved node's own `locateStrategy` when its
ancestor chain has length one, `recursion` otherwise. -/
def effectiveStrategy (t : PObj) : JStr :=
  if (getAncestorsWithElement t).length = 1 then t.locateStrategy
  else "recursion".toList

/-- Everything observable about one wrapped-command invocation's
synchronous run: the operations it appended to the driver queue (in
order), the final argument list handed to the underlying command
function, the strategy value passed to `setLocateStrategy` before the
call (`none` for passthrough invocations), and whether the closure
returns the parent context rather than the underlying result. -/
structure WrappedOutcome where
  queue : List QueuedOp
  passedArgs : List Arg
  desired : Option JStr
  returnsParent : Bool

/-- The closure produced by `makeWrappedCommand`, run on one argument
list.  Captures `client.locateStrategy` first; for targeted invocations
shifts off the sigil token, resolves it through `getSection` (reserved
chai `section` assertion) or `getElement`, computes the ancestor chain,
picks the effective first argument and strategy (own selector/strategy
for a chain of length one, the whole chain plus `recursion` otherwise),
enqueues the strategy switch, prepends the first argument, wraps a
detected callback, invokes the command (which enqueues its own
execution), and finally enqueues the strategy restore.  Passthrough
invocations only invoke the command on the untouched arguments.  The
`client` parameter embeds the source's `parent.client` reference. -/
def makeWrappedCommand (parent : PObj) (client : Client) (commandName : JStr)
    (isChaiAssertion : Bool) (args : List Arg) : Except CWError WrappedOutcome :=
  let prevLocateStrategy := client.locateStrategy
  let elementCommand := isElementCommand args
  if elementCommand then
    let elementOrSectionName := argToJStr (args.headD (Arg.other 0))
    let restArgs := args.tail
    match (if isChaiAssertion && commandName = "section".toList
           then getSection parent elementOrSectionName
           else getElement parent elementOrSectionName) with
    | .error e => .error e
    | .ok elementOrSection =>
      let firstArg := effectiveFirstArg elementOrSection
      let desiredStrategy := effectiveStrategy elementOrSection
      let switchOps := setLocateStrategy desiredStrategy
      let args1 := firstArg :: restArgs
      let args2 := wrapCallback prevLocateStrategy args1
      let cmdOp := QueuedOp.runCommand (callbackKindOf args2)
      let restoreOps := setLocateStrategy prevLocateStrategy
      .ok { queue := switchOps ++ [cmdOp] ++ restoreOps,
            passedArgs := args2,
            desired := some desiredStrategy,
            returnsParent := !isChaiAssertion }
  else
    .ok { queue := [QueuedOp.runCommand (callbackKindOf args)],
          passedArgs := args,
          desired := none,
          returnsParent := !isChaiAssertion }

/-- Draining the driver queue.  Modelled from the spec: strict FIFO; a
strategy switch writes `client.locateStrategy`; a completed command fires
its callback — the `callbackWrapper` first restores the captured strategy
by direct field assignment and then runs the original callback, a plain
callback just runs.  The second component records the strategy value the
original callback observed when it ran (if one ran). -/
def drain : Client → Option JStr → List QueuedOp → Client × Option JStr
  | c, obs, [] => (c, obs)
  | c, obs, .useStrategy s :: rest => drain { c with locateStrategy := s } obs rest
  | c, obs, .runCommand none :: rest => drain c obs rest
  | c, _, .runCommand (some .plain) :: rest => drain c (some c.locateStrategy) rest
  | c, _, .runCommand (some (.wrapper r)) :: rest =>
      drain { c with locateStrategy := r } (some r) rest

/-- One value of the command catalog handed to the registrar: a plain
command function (identified by a tag) for ordinary keys, or a nested
mapping of assertion names to functions under the reserved keys. -/
inductive CatalogEntry where
  | fn (id : Nat)
  | nested (m : List (JStr × Nat))

/-- `Object.keys` of a catalog value as the assertion branch reads it (a
function value has no enumerable keys). -/
def entryAssertions : CatalogEntry → List (JStr × Nat)
  | .fn _ => []
  | .nested m => m

/-- A property attached to a registration target: a wrapped command (the
closure returned by `makeWrappedCommand`, identified by its captured
payload, name and chai flag) or an assertion namespace object holding its
own wrapped assertions. -/
inductive TargetProp where
  | cmd (payload : CatalogEntry) (commandName : JStr) (isChai : Bool)
  | nsObj (props : List (JStr × TargetProp))

/-- The existing property reused by `target[commandName] =
target[commandName] || {}`: an existing namespace object keeps its
contents, anything absent starts empty.  A function-valued slot under a
reserved key would be kept as the assignment target in JavaScript; its
own properties are not modelled here (no registration path reads them). -/
def innerOf : Option TargetProp → List (JStr × TargetProp)
  | some (.nsObj ps) => ps
  | _ => []

/-- `isValidAssertion(commandName)`: the three reserved assertion
namespace keys. -/
def isValidAssertion (commandName : JStr) : Bool :=
  commandName = "assert".toList || commandName = "verify".toList || commandName = "expect".toList

/-- The duplicate-registration message built by `addCommand`. -/
def dupMsg (commandName : JStr) : JStr :=
  "The command \"".toList ++ commandName ++ "\" is already defined!".toList

/-- `addCommand(target, commandFn, commandName, parent, isChaiAssertion)`:
when the slot is occupied (any attached property is truthy), increments
`client.results.errors`, pushes the diagnostic onto `client.errors`, and
throws the duplicate error — the slot is never overwritten because the
throw happens before any assignment; otherwise returns the wrapped
command for the caller to attach. -/
def addCommand (targetProps : List (JStr × TargetProp)) (commandFn : CatalogEntry)
    (commandName : JStr) (client : Client) (isChaiAssertion : Bool) :
    Client × Except CWError TargetProp :=
  match lookupAssoc targetProps commandName with
  | some _ =>
      ({ client with resultsErrors := client.resultsErrors + 1,
                     errors := client.errors ++ [dupMsg commandName] },
       .error (.duplicateCommand (dupMsg commandName)))
  | none => (client, .ok (.cmd commandFn commandName isChaiAssertion))

/-- The inner `forEach` of the assertion branch: attach each wrapped
assertion onto the namespace object in order; a throw aborts the walk,
keeping the assignments already made and the collaborator bookkeeping
written by `addCommand`. -/
def applyAssertions (client : Client) (inner : List (JStr × TargetProp))
    (isChai : Bool) : List (JStr × Nat) →
    Client × List (JStr × TargetProp) × Option CWError
  | [] => (client, inner, none)
  | (assertionName, aFn) :: rest =>
    match addCommand inner (.fn aFn) assertionName client isChai with
    | (client', .error e) => (client', inner, some e)
    | (client', .ok prop) =>
        applyAssertions client' (assocSet inner assertionName prop) isChai rest

/-- `applyCommandsToTarget(parent, target, commands)`: walk the catalog
keys in order; reserved keys get (or reuse) a namespace object and have
their nested assertions attached with the chai flag set only for
`expect`; every other key is attached directly through `addCommand`.  A
throw propagates immediately, leaving earlier attachments and the
bookkeeping in place. -/
def applyCommandsToTarget (client : Client) (target : List (JStr × TargetProp)) :
    List (JStr × CatalogEntry) →
    Client × List (JStr × TargetProp) × Option CWError
  | [] => (client, target, none)
  | (commandName, entry) :: rest =>
    if isValidAssertion commandName then
      let inner := innerOf (lookupAssoc target commandName)
      let target1 := assocSet target commandName (.nsObj inner)
      let isChai := commandName = "expect".toList
      match applyAssertions client inner isChai (entryAssertions entry) with
      | (client', inner', some e) =>
          (client', assocSet target1 commandName (.nsObj inner'), some e)
      | (client', inner', none) =>
          applyCommandsToTarget client' (assocSet target1 commandName (.nsObj inner')) rest
    else
      match addCommand target entry commandName client false with
      | (client', .error e) => (client', target, some e)
      | (client', .ok prop) =>
          applyCommandsToTarget client' (assocSet target commandName prop) rest

/-- `addWrappedCommands(parent, commandLoader)`: the module entry point —
loads the catalog (the loader applied to a fresh object, passed here
already loaded) and applies it to the parent as both parent context and
target. -/
def addWrappedCommands (client : Client) (parentProps : List (JStr × TargetProp))
    (commands : List (JStr × CatalogEntry)) :
    Client × List (JStr × TargetProp) × Option CWError :=
  applyCommandsToTarget client parentProps commands

theorem existsNonLtLt_append (nm rest : JStr) (hne : nm ≠ [])
    (hlt : ∀ c ∈ nm, c ≠ '<') : existsNonLtLt (nm ++ '<' :: rest) = true := by
  induction nm with
  | nil => exact absurd rfl hne
  | cons c tl ih =>
    cases tl with
    | nil =>
      have hc : c ≠ '<' := hlt c (by simp)
      simp [existsNonLtLt, hc]
    | cons c' tl' =>
      have hc' : c' ≠ '<' := hlt c' (by simp)
      have htl := ih (by simp) (fun x hx => hlt x (List.mem_cons_of_mem _ hx))
      simp only [List.cons_append] at htl ⊢
      simp only [existsNonLtLt, Bool.or_eq_true, Bool.and_eq_true, decide_eq_true_eq]
      right
      simpa only [List.cons_append, existsNonLtLt, Bool.or_eq_true, Bool.and_eq_true,
        decide_eq_true_eq] using htl

theorem idxOfLt_append (nm rest : JStr) (hlt : ∀ c ∈ nm, c ≠ '<') :
    idxOfLt (nm ++ '<' :: rest) = nm.length := by
  induction nm with
  | nil => simp [idxOfLt, List.findIdx_cons]
  | cons c tl ih =>
    have hc : c ≠ '<' := hlt c (by simp)
    have htl := ih (fun x hx => hlt x (List.mem_cons_of_mem _ hx))
    simp only [idxOfLt, List.cons_append, List.findIdx_cons, hc, decide_False,
      cond_false, List.length_cons] at htl ⊢
    omega

theorem lastIdxOfGt_concat (pre : JStr) : lastIdxOfGt (pre ++ ['>']) = pre.length := by
  simp only [lastIdxOfGt, List.reverse_append, List.reverse_cons, List.reverse_nil,
    List.nil_append, List.cons_append, List.findIdx_cons, decide_True, cond_true,
    List.length_append, List.length_cons, List.length_nil]
  omega

theorem betweenLtGt_spec (nm argsStr : JStr) (hlt : ∀ c ∈ nm, c ≠ '<') :
    betweenLtGt (nm ++ '<' :: argsStr ++ ['>']) = argsStr := by
  have hassoc : nm ++ '<' :: argsStr ++ ['>'] = (nm ++ '<' :: argsStr) ++ ['>'] := by simp
  have hidx : idxOfLt (nm ++ '<' :: argsStr ++ ['>']) = nm.length := by
    have : nm ++ '<' :: argsStr ++ ['>'] = nm ++ '<' :: (argsStr ++ ['>']) := by simp
    rw [this, idxOfLt_append _ _ hlt]
  rw [betweenLtGt, hidx, hassoc, lastIdxOfGt_concat, List.take_left]
  have : nm ++ '<' :: argsStr = (nm ++ ['<']) ++ argsStr := by simp
  rw [this]
  have hlen : nm.length + 1 = (nm ++ ['<']).length := by simp
  rw [hlen, List.drop_left]

theorem baseNamePart_append (nm rest : JStr) (hlt : ∀ c ∈ nm, c ≠ '<') :
    baseNamePart (nm ++ '<' :: rest) = nm := by
  rw [baseNamePart, idxOfLt_append _ _ hlt, List.take_left]

theorem hasParamPattern_append (nm argsStr : JStr) (hne : nm ≠ [])
    (hlt : ∀ c ∈ nm, c ≠ '<') :
    hasParamPattern (nm ++ '<' :: argsStr ++ ['>']) = true := by
  have hassoc : nm ++ '<' :: argsStr ++ ['>'] = (nm ++ '<' :: argsStr) ++ ['>'] := by simp
  have hend : endsWithGt (nm ++ '<' :: argsStr ++ ['>']) = true := by
    rw [endsWithGt, hassoc, List.getLast?_concat]
    simp
  have hex : existsNonLtLt (nm ++ '<' :: argsStr ++ ['>']) = true := by
    have : nm ++ '<' :: argsStr ++ ['>'] = nm ++ '<' :: (argsStr ++ ['>']) := by simp
    rw [this]
    exact existsNonLtLt_append nm (argsStr ++ ['>']) hne hlt
  rw [hasParamPattern, hend, hex]
  rfl

/-- Shared parsing fact: a sigil token built from a `<`-free base name and
a raw argument string resolves through the parameterized branch, landing
in `convertSelector` on the base element with the comma-split
arguments. -/
theorem getElement_param (p : PObj) (nm argsStr : JStr) (e : PObj)
    (hne : nm ≠ []) (hlt : ∀ c ∈ nm, c ≠ '<')
    (hfull : lookupAssoc p.elements (nm ++ '<' :: argsStr ++ ['>']) = none)
    (hbase : lookupAssoc p.elements nm = some e) :
    getElement p ('@' :: nm ++ '<' :: argsStr ++ ['>']) =
      convertSelector e (splitOnComma argsStr) := by
  have hdrop : ('@' :: nm ++ '<' :: argsStr ++ ['>']).drop 1
      = nm ++ '<' :: argsStr ++ ['>'] := by simp
  rw [getElement]
  simp only [hdrop, hfull, hasParamPattern_append nm argsStr hne hlt,
    betweenLtGt_spec nm argsStr hlt, if_true]
  simp only [List.cons_append, List.append_assoc]
  rw [baseNamePart_append nm (argsStr ++ ['>']) hlt, hbase]

theorem drain_append (l1 l2 : List QueuedOp) (c : Client) (obs : Option JStr) :
    drain c obs (l1 ++ l2) = drain (drain c obs l1).1 (drain c obs l1).2 l2 := by
  induction l1 generalizing c obs with
  | nil => simp [drain]
  | cons op rest ih =>
    cases op with
    | useStrategy s => simp only [List.cons_append, drain]; exact ih _ _
    | runCommand cb =>
      cases cb with
      | none => simp only [List.cons_append, drain]; exact ih _ _
      | some k =>
        cases k with
        | plain => simp only [List.cons_append, drain]; exact ih _ _
        | wrapper r => simp only [List.cons_append, drain]; exact ih _ _

theorem findCallbackIndex_cases (args : List Arg) (i : Nat)
    (h : findCallbackIndex args = some i) :
    (i = args.length - 1 ∧ funcAt args i = true) ∨
    (i = args.length - 2 ∧ 2 ≤ args.length ∧ funcAt args (args.length - 1) = false ∧
      funcAt args i = true) := by
  simp only [findCallbackIndex] at h
  split_ifs at h with h0 h1 h2 h3
  · have hi := Option.some.inj h
    exact Or.inl ⟨hi.symm, hi ▸ h1⟩
  · have hi := Option.some.inj h
    refine Or.inr ⟨by omega, by omega, by simpa using h1, hi ▸ h3⟩

theorem funcAt_set_self (args : List Arg) (i : Nat) (a b : Arg)
    (hget : args.get? i = some a) (hb : isFuncArg b = true) :
    funcAt (args.set i b) i = true := by
  have hi : i < args.length := (List.get?_eq_some.mp hget).1
  unfold funcAt
  rw [List.get?_set_eq_of_lt b hi]
  exact hb

theorem funcAt_set_ne (args : List Arg) (i j : Nat) (b : Arg) (h : i ≠ j) :
    funcAt (args.set i b) j = funcAt args j := by
  unfold funcAt
  rw [List.get?_set_ne b args h]

theorem findCallbackIndex_set_wrapped (prev : JStr) (args : List Arg) (i : Nat)
    (a : Arg) (hidx : findCallbackIndex args = some i) (hget : args.get? i = some a) :
    findCallbackIndex (args.set i (Arg.wrapped prev a)) = some i := by
  have hi : i < args.length := (List.get?_eq_some.mp hget).1
  have hlen : (args.set i (Arg.wrapped prev a)).length = args.length :=
    List.length_set args i _
  have h0 : ¬ args.length = 0 := by omega
  rcases findCallbackIndex_cases args i hidx with ⟨hi1, _⟩ | ⟨hi2, hge2, hlast, _⟩
  · have hfA : funcAt (args.set i (Arg.wrapped prev a)) (args.length - 1) = true := by
      rw [← hi1]
      exact funcAt_set_self args i a _ hget rfl
    simp only [findCallbackIndex, hlen]
    rw [if_neg h0, if_pos hfA, ← hi1]
  · have hfA1 : ¬ (funcAt (args.set i (Arg.wrapped prev a)) (args.length - 1) = true) := by
      rw [funcAt_set_ne args i (args.length - 1) _ (by omega), hlast]
      simp
    have hne1 : ¬ (args.length - 1 = 0) := by omega
    have hfA2 : funcAt (args.set i (Arg.wrapped prev a)) (args.length - 1 - 1) = true := by
      have heq : args.length - 1 - 1 = i := by omega
      rw [heq]
      exact funcAt_set_self args i a _ hget rfl
    simp only [findCallbackIndex, hlen]
    rw [if_neg h0, if_neg hfA1, if_neg hne1, if_pos hfA2]
    have heq : args.length - 1 - 1 = i := by omega
    rw [heq]

theorem callback_key (prev : JStr) (args : List Arg) (k : CallbackKind)
    (h : callbackKindOf (wrapCallback prev args) = some k) :
    k = CallbackKind.wrapper prev := by
  cases hidx : findCallbackIndex args with
  | none =>
    simp only [wrapCallback, hidx] at h
    simp only [callbackKindOf, hidx] at h
    exact Option.noConfusion h
  | some i =>
    cases hget : args.get? i with
    | none =>
      simp only [wrapCallback, hidx, hget] at h
      simp only [callbackKindOf, hidx, hget] at h
      exact Option.noConfusion h
    | some a =>
      have hi : i < args.length := (List.get?_eq_some.mp hget).1
      have hfscan := findCallbackIndex_set_wrapped prev args i a hidx hget
      simp only [wrapCallback, hidx, hget] at h
      simp only [callbackKindOf, hfscan, List.get?_set_eq_of_lt _ hi,
        Option.some.injEq] at h
      exact h.symm

theorem wrapCallback_head (prev : JStr) (a : Arg) (rest : List Arg) :
    (wrapCallback prev (a :: rest)).head? =
      some (if findCallbackIndex (a :: rest) = some 0
            then Arg.wrapped prev a else a) := by
  unfold wrapCallback
  cases hidx : findCallbackIndex (a :: rest) with
  | none => simp
  | some i =>
    cases i with
    | zero => simp [List.set]
    | succ n =>
      simp only [hidx]
      cases hget : rest[n]? with
      | none => simp [hget]
      | some b => simp [hget, List.set]

theorem callbackKindOf_userArgs (args : List Arg) (hall : args.all userArg = true)
    (r : JStr) : callbackKindOf args ≠ some (CallbackKind.wrapper r) := by
  unfold callbackKindOf
  cases hidx : findCallbackIndex args with
  | none => simp
  | some i =>
    cases hget : args[i]? with
    | none => simp [hget]
    | some a =>
      cases a with
      | wrapped r' orig =>
        have hget' : args.get? i = some (Arg.wrapped r' orig) := by
          rw [List.get?_eq_getElem?]
          exact hget
        have hmem : Arg.wrapped r' orig ∈ args := List.get?_mem hget'
        have := List.all_eq_true.mp hall _ hmem
        simp [userArg] at this
      | str s => simp [hget]
      | other n => simp [hget]
      | func id => simp [hget]
      | sel s => simp [hget]
      | chain l => simp [hget]

/-- The ancestor chain is properly linked: each node's successor in the
chain names it as `parent`, and every non-final link has a truthy
selector (the condition under which the walk continued). -/
def linked : List PObj → Prop
  | [] => True
  | [_] => True
  | a :: b :: rest =>
      (b.parent = some a ∧ selectorTruthy a.selector = true) ∧ linked (b :: rest)

theorem addElementAcc_spec (e : PObj) (acc : List PObj) :
    (∃ l, addElementAcc e acc = l ++ e :: acc) ∧
    (linked (e :: acc) → linked (addElementAcc e acc)) := by
  induction e, acc using addElementAcc.induct with
  | case1 n s ls els sm ss acc p htr hlet heq ih =>
    have hstep : addElementAcc (PObj.mk n s ls (some p) els sm ss) acc
        = addElementAcc p (PObj.mk n s ls (some p) els sm ss :: acc) := by
      simp only [addElementAcc, htr, if_true]
    constructor
    · obtain ⟨l', hl'⟩ := ih.1
      refine ⟨l' ++ [p], ?_⟩
      rw [hstep, hl']
      simp
    · intro hl
      rw [hstep]
      exact ih.2 ⟨⟨by simp, htr⟩, hl⟩
  | case2 n s ls els sm ss acc p htr hlet =>
    have hstep : addElementAcc (PObj.mk n s ls (some p) els sm ss) acc
        = PObj.mk n s ls (some p) els sm ss :: acc := by
      simp only [addElementAcc, htr, Bool.false_eq_true, if_false]
    exact ⟨⟨[], by rw [hstep]; rfl⟩, fun hl => by rw [hstep]; exact hl⟩
  | case3 n s ls els sm ss acc heq =>
    have hstep : addElementAcc (PObj.mk n s ls none els sm ss) acc
        = PObj.mk n s ls none els sm ss :: acc := by
      simp only [addElementAcc]
    exact ⟨⟨[], by rw [hstep]; rfl⟩, fun hl => by rw [hstep]; exact hl⟩

/-- A page with one statically addressed element (`#submit`, css). -/
def elBtn : PObj :=
  PObj.mk ("submitButton".toList) (some (.str ("#submit".toList))) ("css selector".toList) none [] [] []

def pageA : PObj :=
  PObj.mk ("signupPage".toList) none ("css selector".toList) none [("submitButton".toList, elBtn)] [] []

/-- A driver whose current strategy is `xpath` with clean bookkeeping. -/
def client0 : Client := { locateStrategy := "xpath".toList, resultsErrors := 0, errors := [] }

/-- A dynamic selector function and an element using it. -/
def paramFn : List JStr → JStr := fun l => "#".toList ++ l.flatten

def elParam : PObj :=
  PObj.mk ("slot".toList) (some (.fn paramFn)) ("css selector".toList) none [] [] []

def pParam : PObj :=
  PObj.mk ("pg".toList) none ("css selector".toList) none [("slot".toList, elParam)] [] []

/-- A page whose element namespace contains a key that itself carries
parameter syntax. -/
def elLit : PObj :=
  PObj.mk ("a<b>".toList) (some (.str ("#lit".toList))) ("css selector".toList) none [] [] []

def pWeird : PObj :=
  PObj.mk ("w".toList) none ("css selector".toList) none [("a<b>".toList, elLit)] [] []

/-- A container whose singular `section` collection and plural `sections`
collection hold different names. -/
def sObj : PObj :=
  PObj.mk ("sec1".toList) (some (.str ("#s1".toList))) ("css selector".toList) none [] [] []

def sObj2 : PObj :=
  PObj.mk ("other".toList) (some (.str ("#o".toList))) ("css selector".toList) none [] [] []

def secP : PObj :=
  PObj.mk ("page".toList) none ("css selector".toList) none [] [("sec1".toList, sObj)] [("other".toList, sObj2)]

/-- An element whose selector is a function, resolved without parameters. -/
def elDyn : PObj :=
  PObj.mk ("dyn".toList) (some (.fn (fun _ => "#d".toList))) ("css selector".toList) none [] [] []

def pageDyn : PObj :=
  PObj.mk ("pd".toList) none ("css selector".toList) none [("dyn".toList, elDyn)] [] []

/-- A target that already holds a registered `click` command. -/
def props0 : List (JStr × TargetProp) :=
  [("click".toList, .cmd (.fn 1) ("click".toList) false)]

/-- C4: for a parameterized reference `name<a,b>` whose base element has a
function selector, the resolved descriptor's selector is the base selector
function applied to the parsed argument list, and its `parent` (and the
inherited `name`) equal the base element's.  Object identity of the parent
back-link is embedded as equality of the `parent` field, which
`convertSelector` copies from the original without change. -/
theorem claim_C4_param_selector_and_parent (p : PObj) (nm argsStr : JStr) (e : PObj)
    (f : List JStr → JStr)
    (hne : nm ≠ []) (hlt : ∀ c ∈ nm, c ≠ '<')
    (hfull : lookupAssoc p.elements (nm ++ '<' :: argsStr ++ ['>']) = none)
    (hbase : lookupAssoc p.elements nm = some e)
    (hsel : e.selector = some (Selector.fn f)) :
    (getElement p ('@' :: nm ++ '<' :: argsStr ++ ['>'])).map
      (fun d => (d.selector, d.parent, d.name)) =
    .ok (some (Selector.str (f (splitOnComma argsStr))), e.parent, e.name) := by
  rw [getElement_param p nm argsStr e hne hlt hfull hbase]
  simp only [convertSelector, hsel, Except.map, PObj.selector_mk, PObj.parent_mk,
    PObj.name_mk]

theorem claim_C4_witness :
    (getElement pParam ('@' :: "slot".toList ++ '<' :: "a,b".toList ++ ['>'])).map
      (fun d => (d.selector, d.parent, d.name)) =
    .ok (some (Selector.str (paramFn (splitOnComma ("a,b".toList)))), none, "slot".toList) :=
  claim_C4_param_selector_and_parent pParam ("slot".toList) ("a,b".toList) elParam paramFn
    (by decide) (by decide) (by rfl) (by rfl) (by rfl)

/-- C5: a parameterized reference to an element whose selector is not a
function fails at resolution time with the configuration error naming the
element; the resolver is a pure function of the tree, so the element
itself is left unchanged (`convertSelector` only ever writes to the
clone). -/
theorem claim_C5_nonfunction_selector_error (p : PObj) (nm x : JStr) (e : PObj)
    (hne : nm ≠ []) (hlt : ∀ c ∈ nm, c ≠ '<')
    (hfull : lookupAssoc p.elements (nm ++ '<' :: x ++ ['>']) = none)
    (hbase : lookupAssoc p.elements nm = some e)
    (hnf : ∀ f, e.selector ≠ some (Selector.fn f)) :
    getElement p ('@' :: nm ++ '<' :: x ++ ['>']) =
      .error (.configuration (e.name ++ configMsgSuffix)) := by
  rw [getElement_param p nm x e hne hlt hfull hbase]
  cases hsel : e.selector with
  | none => simp [convertSelector, hsel]
  | some sv =>
    cases sv with
    | str s => simp [convertSelector, hsel]
    | fn f => exact absurd hsel (hnf f)

theorem claim_C5_witness :
    getElement pageA ('@' :: "submitButton".toList ++ '<' :: "x".toList ++ ['>']) =
      .error (.configuration ("submitButton".toList ++ configMsgSuffix)) :=
  claim_C5_nonfunction_selector_error pageA ("submitButton".toList) ("x".toList) elBtn
    (by decide) (by decide) (by rfl) (by rfl)
    (fun f h => Selector.noConfusion (Option.some.inj h))

/-- C6: the ancestor chain builder returns a sequence of length at least
one whose last entry is the target itself, and the sequence is ordered
from the outermost container down: every entry names its predecessor as
`parent`, and the walk continued exactly through parents with a truthy
selector. -/
theorem claim_C6_ancestor_chain_shape (e : PObj) :
    1 ≤ (getAncestorsWithElement e).length ∧
    (getAncestorsWithElement e).getLast? = some e ∧
    linked (getAncestorsWithElement e) := by
  obtain ⟨l, hl⟩ := (addElementAcc_spec e []).1
  refine ⟨?_, ?_, ?_⟩
  · rw [getAncestorsWithElement, hl]
    simp
  · rw [getAncestorsWithElement, hl]
    exact List.getLast?_concat l
  · rw [getAncestorsWithElement]
    exact (addElementAcc_spec e []).2 trivial

/-- C8: attaching a command to an occupied slot yields the duplicate
error after incrementing the collaborator's error counter and pushing the
diagnostic onto its error log, and a registration pass hitting the
duplicate returns the target untouched, keeping the first registration. -/
theorem claim_C8_duplicate_registration (props : List (JStr × TargetProp))
    (entry : CatalogEntry) (nm : JStr) (client : Client) (chai : Bool)
    (p0 : TargetProp) (hocc : lookupAssoc props nm = some p0) :
    addCommand props entry nm client chai =
      ({ client with resultsErrors := client.resultsErrors + 1,
                     errors := client.errors ++ [dupMsg nm] },
       .error (.duplicateCommand (dupMsg nm))) ∧
    (isValidAssertion nm = false →
      applyCommandsToTarget client props [(nm, entry)] =
        ({ client with resultsErrors := client.resultsErrors + 1,
                       errors := client.errors ++ [dupMsg nm] },
         props, some (.duplicateCommand (dupMsg nm)))) := by
  have haddc : ∀ c : Bool, addCommand props entry nm client c =
      ({ client with resultsErrors := client.resultsErrors + 1,
                     errors := client.errors ++ [dupMsg nm] },
       .error (.duplicateCommand (dupMsg nm))) := by
    intro c
    unfold addCommand
    rw [hocc]
  refine ⟨haddc chai, fun hres => ?_⟩
  unfold applyCommandsToTarget
  simp only [hres, Bool.false_eq_true, if_false, haddc false]

theorem claim_C8_witness :
    addCommand props0 (.fn 2) ("click".toList) client0 false =
      ({ client0 with resultsErrors := 1, errors := [dupMsg ("click".toList)] },
       .error (.duplicateCommand (dupMsg ("click".toList)))) :=
  (claim_C8_duplicate_registration props0 (.fn 2) ("click".toList) client0 false
    (.cmd (.fn 1) ("click".toList) false) (by rfl)).1

/-- C9 counterexample: for a container whose singular `section` collection
(the namespace `getSection` consults) and plural `sections` collection
disagree, the not-found message enumerates the `sections` keys, not the
names available in the namespace in which the token was missed. -/
theorem claim_C9_counterexample_section_namespace_mismatch :
    getSection secP ('@' :: "missing".toList) =
      .error (.notFound ("missing was not found in \"page\". Available sections: other".toList)) ∧
    joinKeys secP.sectionM = "sec1".toList ∧
    "missing was not found in \"page\". Available sections: other".toList ≠
      "missing".toList ++ " was not found in \"".toList ++ secP.name ++
        "\". Available sections: ".toList ++ joinKeys secP.sectionM := by
  exact ⟨by rfl, by rfl, by decide⟩

/-- C9 amended: a not-found failure carries a message enumerating, for
elements, the element namespace's names (with the base name when the
token was parameterized), and, for sections, the keys of the plural
`sections` collection even though membership was tested in the singular
`section` collection. -/
theorem claim_C9_amended_notfound_messages (p : PObj) (tok : JStr) :
    ((lookupAssoc p.elements (tok.drop 1) = none ∧
      hasParamPattern (tok.drop 1) = false) →
      getElement p tok = .error (.notFound (elemNotFoundMsg (tok.drop 1) p))) ∧
    ((lookupAssoc p.elements (tok.drop 1) = none ∧
      hasParamPattern (tok.drop 1) = true ∧
      lookupAssoc p.elements (baseNamePart (tok.drop 1)) = none) →
      getElement p tok = .error (.notFound (elemNotFoundMsg (baseNamePart (tok.drop 1)) p))) ∧
    (lookupAssoc p.sectionM (tok.drop 1) = none →
      getSection p tok = .error (.notFound (sectionNotFoundMsg (tok.drop 1) p))) := by
  refine ⟨?_, ?_, ?_⟩
  · rintro ⟨h1, h2⟩
    simp only [getElement, h1, h2, Bool.false_eq_true, if_false]
  · rintro ⟨h1, h2, h3⟩
    simp only [getElement, h1, h2, if_true, h3]
  · intro h1
    simp only [getSection, h1]

theorem claim_C9_amended_witness :
    getSection secP ('@' :: "missing".toList) =
      .error (.notFound (sectionNotFoundMsg ("missing".toList) secP)) :=
  (claim_C9_amended_notfound_messages secP ('@' :: "missing".toList)).2.2 (by rfl)

/-- C10: a direct hit of the whole sigil-stripped token in the element
namespace returns that element as is, before any parameter parsing is
attempted — even when the token itself carries `<...>` syntax. -/
theorem claim_C10_direct_lookup_precedence (p : PObj) (tok : JStr) (e : PObj)
    (hdirect : lookupAssoc p.elements (tok.drop 1) = some e) :
    getElement p tok = .ok e := by
  simp only [getElement, hdirect]

theorem claim_C10_witness : getElement pWeird ("@a<b>".toList) = .ok elLit :=
  claim_C10_direct_lookup_precedence pWeird ("@a<b>".toList) elLit (by rfl)

theorem drain_targeted (client : Client) (d prev : JStr) (cb : Option CallbackKind)
    (hvalid : validStrategy prev = true)
    (hwrap : ∀ r, cb = some (CallbackKind.wrapper r) → r = prev)
    (hplain : cb ≠ some CallbackKind.plain) :
    (drain client none (setLocateStrategy d ++ [QueuedOp.runCommand cb] ++
      setLocateStrategy prev)).1.locateStrategy = prev ∧
    (∀ s, (drain client none (setLocateStrategy d ++ [QueuedOp.runCommand cb] ++
      setLocateStrategy prev)).2 = some s → s = prev) := by
  have hrestore : setLocateStrategy prev = [QueuedOp.useStrategy prev] := by
    simp [setLocateStrategy, hvalid]
  cases cb with
  | none =>
    rw [hrestore]
    unfold setLocateStrategy
    split_ifs <;> simp [drain]
  | some k =>
    cases k with
    | plain => exact absurd rfl hplain
    | wrapper r =>
      have hr := hwrap r rfl
      subst hr
      rw [hrestore]
      unfold setLocateStrategy
      split_ifs <;> simp [drain]

/-- C1: once a targeted invocation's queued work has drained — including
the firing of any deferred callback — the driver's locate strategy equals
the `client.locateStrategy` value captured immediately before the
invocation started, and the strategy observed inside a supplied callback
is that same pre-invocation value (the wrapper restores it by direct
assignment before the original callback runs).  The pre-invocation value
is assumed to be one of the three recognized strategies, as the data
model guarantees. -/
theorem claim_C1_strategy_restored (p : PObj) (client : Client) (nm : JStr)
    (chai : Bool) (args : List Arg) (o : WrappedOutcome)
    (htarget : isElementCommand args = true)
    (hvalid : validStrategy client.locateStrategy = true)
    (hok : makeWrappedCommand p client nm chai args = .ok o) :
    (drain client none o.queue).1.locateStrategy = client.locateStrategy ∧
    (∀ s, (drain client none o.queue).2 = some s → s = client.locateStrategy) := by
  simp only [makeWrappedCommand, htarget, if_true] at hok
  split at hok
  next e => simp at hok
  next t ht =>
    rw [Except.ok.injEq] at hok
    subst hok
    exact drain_targeted client (effectiveStrategy t) client.locateStrategy
      (callbackKindOf (wrapCallback client.locateStrategy (effectiveFirstArg t :: args.tail)))
      hvalid
      (fun r hr => CallbackKind.wrapper.inj
        (callback_key client.locateStrategy (effectiveFirstArg t :: args.tail) _ hr))
      (fun hp => CallbackKind.noConfusion
        (callback_key client.locateStrategy (effectiveFirstArg t :: args.tail) _ hp))

/-- The outcome of `page.click('@submitButton', callback)` on `pageA` with
the driver on `xpath`. -/
def o1 : WrappedOutcome :=
  { queue := [.useStrategy ("css selector".toList),
              .runCommand (some (.wrapper ("xpath".toList))),
              .useStrategy ("xpath".toList)],
    passedArgs := [.sel (some (.str ("#submit".toList))), .wrapped ("xpath".toList) (.func 0)],
    desired := some ("css selector".toList),
    returnsParent := true }

theorem claim_C1_witness :
    (drain client0 none o1.queue).1.locateStrategy = client0.locateStrategy :=
  (claim_C1_strategy_restored pageA client0 ("click".toList) false
    [Arg.str ("@submitButton".toList), Arg.func 0] o1 (by rfl) (by rfl) (by rfl)).1

/-- Whether an argument is the installed `callbackWrapper` closure. -/
def Arg.isWrapped : Arg → Bool
  | .wrapped _ _ => true
  | _ => false

/-- Whether an argument is a prepended raw `selector` field value. -/
def Arg.isSel : Arg → Bool
  | .sel _ => true
  | _ => false

/-- C2 counterexample: in a targeted invocation that carries a callback,
the wrapper is installed (second passed argument) and yet the synchronous
restore is still issued — the invocation's final queued operation is the
`useXpath` switch back to the captured strategy, so restoration is not
deferred exclusively to the wrapper. -/
theorem claim_C2_counterexample_sync_restore_not_skipped :
    (makeWrappedCommand pageA client0 ("click".toList) false
        [Arg.str ("@submitButton".toList), Arg.func 0]).map
      (fun o => (o.queue, o.passedArgs.map Arg.isWrapped)) =
    .ok ([QueuedOp.useStrategy ("css selector".toList),
          QueuedOp.runCommand (some (.wrapper ("xpath".toList))),
          QueuedOp.useStrategy ("xpath".toList)],
         [false, true]) := by rfl

/-- C2 amended: for every targeted invocation the strategy restore to the
captured value is enqueued unconditionally as the invocation's last
queued operation (assuming the captured value is a recognized strategy),
and, when a callback wrapper was installed, that wrapper additionally
restores the captured value directly when the driver fires it. -/
theorem claim_C2_amended_restore_always_enqueued (p : PObj) (client : Client)
    (nm : JStr) (chai : Bool) (args : List Arg) (o : WrappedOutcome)
    (htarget : isElementCommand args = true)
    (hvalid : validStrategy client.locateStrategy = true)
    (hok : makeWrappedCommand p client nm chai args = .ok o) :
    o.queue.getLast? = some (QueuedOp.useStrategy client.locateStrategy) ∧
    (∀ r, callbackKindOf o.passedArgs = some (CallbackKind.wrapper r) →
      r = client.locateStrategy) := by
  simp only [makeWrappedCommand, htarget, if_true] at hok
  split at hok
  next e => simp at hok
  next t ht =>
    rw [Except.ok.injEq] at hok
    subst hok
    have hrestore : setLocateStrategy client.locateStrategy =
        [QueuedOp.useStrategy client.locateStrategy] := by
      simp [setLocateStrategy, hvalid]
    constructor
    · show (setLocateStrategy (effectiveStrategy t) ++
        [QueuedOp.runCommand (callbackKindOf (wrapCallback client.locateStrategy
          (effectiveFirstArg t :: args.tail)))] ++
        setLocateStrategy client.locateStrategy).getLast? = _
      rw [hrestore]
      exact List.getLast?_concat _
    · intro r hr
      exact CallbackKind.wrapper.inj
        (callback_key client.locateStrategy (effectiveFirstArg t :: args.tail) _ hr)

theorem claim_C2_amended_witness :
    o1.queue.getLast? = some (QueuedOp.useStrategy client0.locateStrategy) :=
  (claim_C2_amended_restore_always_enqueued pageA client0 ("click".toList) false
    [Arg.str ("@submitButton".toList), Arg.func 0] o1 (by rfl) (by rfl) (by rfl)).1

/-- C3 counterexample: a targeted invocation resolving to an element with
a function-valued selector and a one-element ancestor chain does not pass
that selector through — the trailing-function scan mistakes the prepended
selector for a callback and replaces it, so the single argument the
underlying command receives is the callback wrapper, not the selector. -/
theorem claim_C3_counterexample_function_selector_wrapped :
    (makeWrappedCommand pageDyn client0 ("click".toList) false [Arg.str ("@dyn".toList)]).map
      (fun o => (o.passedArgs.map Arg.isWrapped, o.passedArgs.map Arg.isSel, o.desired)) =
    .ok ([true], [false], some ("css selector".toList)) := by rfl

/-- C3 amended: for a resolved target the strategy passed to the setter
is the target's own `locateStrategy` for a chain of length one and
`recursion` otherwise, and the prepended first argument (the target's raw
selector, respectively the whole ancestor chain) reaches the underlying
command unchanged unless the scan detects it as a callback at position
zero — possible only for a function-valued selector — in which case the
command receives it wrapped in the callback wrapper. -/
theorem claim_C3_amended_first_arg_and_strategy (p : PObj) (client : Client)
    (nm : JStr) (chai : Bool) (s : JStr) (rest : List Arg) (o : WrappedOutcome)
    (t : PObj)
    (htarget : isElementCommand (Arg.str s :: rest) = true)
    (hres : (if chai && nm = "section".toList then getSection p s else getElement p s)
      = .ok t)
    (hok : makeWrappedCommand p client nm chai (Arg.str s :: rest) = .ok o) :
    o.desired = some (effectiveStrategy t) ∧
    o.passedArgs.head? = some
      (if findCallbackIndex (effectiveFirstArg t :: rest) = some 0
       then Arg.wrapped client.locateStrategy (effectiveFirstArg t)
       else effectiveFirstArg t) := by
  simp only [makeWrappedCommand, htarget, if_true, List.headD_cons, argToJStr,
    List.tail_cons] at hok
  rw [hres] at hok
  rw [Except.ok.injEq] at hok
  subst hok
  exact ⟨rfl, wrapCallback_head client.locateStrategy (effectiveFirstArg t) rest⟩

/-- The outcome of `page.click('@submitButton')` on `pageA` with the
driver on `xpath` (no callback supplied). -/
def oC3 : WrappedOutcome :=
  { queue := [.useStrategy ("css selector".toList),
              .runCommand none,
              .useStrategy ("xpath".toList)],
    passedArgs := [.sel (some (.str ("#submit".toList)))],
    desired := some ("css selector".toList),
    returnsParent := true }

theorem claim_C3_amended_witness :
    oC3.desired = some (effectiveStrategy elBtn) :=
  (claim_C3_amended_first_arg_and_strategy pageA client0 ("click".toList) false
    ("@submitButton".toList) [] oC3 elBtn (by rfl) (by rfl) (by rfl)).1

/-- C7: a passthrough invocation (first argument absent or not
sigil-prefixed) leaves the argument list untouched, passes no strategy to
the setter, enqueues no strategy switch, and draining its queued work
leaves the driver state unchanged — the wrapper's initial capture of
`client.locateStrategy` is a dead read on this path.  Arguments are the
caller-suppliable shapes (strings, data, plain callbacks). -/
theorem claim_C7_passthrough_untouched (p : PObj) (client : Client) (nm : JStr)
    (chai : Bool) (args : List Arg) (o : WrappedOutcome)
    (hpass : isElementCommand args = false)
    (huser : args.all userArg = true)
    (hok : makeWrappedCommand p client nm chai args = .ok o) :
    o.passedArgs = args ∧ o.desired = none ∧
    (∀ s, QueuedOp.useStrategy s ∉ o.queue) ∧
    (drain client none o.queue).1 = client := by
  simp only [makeWrappedCommand, hpass, Bool.false_eq_true, if_false] at hok
  rw [Except.ok.injEq] at hok
  subst hok
  refine ⟨rfl, rfl, ?_, ?_⟩
  · intro s hmem
    simp at hmem
  · cases hcb : callbackKindOf args with
    | none => simp [drain]
    | some k =>
      cases k with
      | plain => simp [hcb, drain]
      | wrapper r => exact absurd hcb (callbackKindOf_userArgs args huser r)

/-- The outcome of a passthrough call with a data argument and a plain
callback. -/
def oPass : WrappedOutcome :=
  { queue := [.runCommand (some .plain)],
    passedArgs := [.other 5, .func 0],
    desired := none,
    returnsParent := true }

theorem claim_C7_witness : (drain client0 none oPass.queue).1 = client0 :=
  (claim_C7_passthrough_untouched pageA client0 ("click".toList) false
    [Arg.other 5, Arg.func 0] oPass (by rfl) (by rfl) (by rfl)).2.2.2
